import Mathlib

/-!
# Verification of the `autonomous-qa-agent` core against its specification

This file gives a shallow embedding, in Lean 4, of the core of the
`autonomous-qa-agent` repository — the FAISS-backed vector index
(`backend/core/vectordb.py`), the chunker (`backend/core/chunking.py`), the
RAG pipeline (`backend/core/rag.py`) and the structured test-case extractor
(`backend/api/generation.py`) — and proves or refutes the specification's
claims about them.

Modelling conventions:
* Python strings are modelled as `List Char`; Python string methods
  (`strip`, `find`, `startswith`, `split`, `replace`, …) are modelled by
  executable functions with matching semantics.
* Embedding vectors are IEEE-754 float arrays in the source; they are
  modelled as `List ℚ` (exact arithmetic).  The claims under scrutiny
  (ordering, clamping, tie-breaking, round-trips, invariants) do not depend
  on rounding, only on the ordered-field structure of the scalar type.
* The `sentence_transformers` embedding model is an opaque external
  collaborator; it is modelled as an arbitrary function `embed : Str → Vec`
  (deterministic, per the spec's collaborator contract).
* `faiss.IndexFlatL2` is an external library performing exact exhaustive
  squared-L2 k-nearest-neighbour search; it is modelled as such, with
  results ascending by distance, ties by insertion index, and rows beyond
  `ntotal` padded with label `-1` (which the Python code filters out).
* Python dicts are modelled as insertion-ordered association lists with
  upsert semantics.
-/

namespace AQA

/-! ## Python-style string primitives (`List Char`) -/

abbrev Str := List Char

/-- The character class of Python's `str.strip()` / `\s` (ASCII part). -/
def pyIsSpace (c : Char) : Bool :=
  c = ' ' || c = '\t' || c = '\n' || c = '\r' || c = '\x0b' || c = '\x0c'

/-- Python `s.lstrip()`. -/
def lstrip (s : Str) : Str := s.dropWhile pyIsSpace

/-- Python `s.rstrip()`. -/
def rstrip (s : Str) : Str := (s.reverse.dropWhile pyIsSpace).reverse

/-- Python `s.strip()`. -/
def pyStrip (s : Str) : Str := rstrip (lstrip s)

/-- Python `s.lstrip(cs)` for an explicit set of characters. -/
def lstripChars (cs : Str) (s : Str) : Str := s.dropWhile (fun c => c ∈ cs)

/-- Python `s.rstrip(cs)` for an explicit set of characters. -/
def rstripChars (cs : Str) (s : Str) : Str :=
  (s.reverse.dropWhile (fun c => c ∈ cs)).reverse

/-- Index of the first occurrence of `needle` in `hay` (Python `hay.find(needle)`,
with `none` for `-1`). -/
def findSubAux (needle : Str) : Str → Nat → Option Nat
  | [], i => if needle = [] then some i else none
  | c :: cs, i =>
    if needle.isPrefixOf (c :: cs) then some i else findSubAux needle cs (i + 1)

def findSub (hay needle : Str) : Option Nat := findSubAux needle hay 0

/-- Python `hay.find(needle, start)`. -/
def findSubFrom (hay needle : Str) (start : Nat) : Option Nat :=
  (findSub (hay.drop start) needle).map (· + start)

/-- Python `needle in hay`. -/
def containsSub (hay needle : Str) : Bool := (findSub hay needle).isSome

/-- Python `hay.replace(needle, "")`, removing every occurrence left to right
(`needle` assumed non-empty; fuel-driven recursion on the length of `hay`). -/
def removeAllAux (needle : Str) : Nat → Str → Str
  | 0, _ => []
  | _ + 1, [] => []
  | fuel + 1, c :: cs =>
    if needle ≠ [] ∧ needle.isPrefixOf (c :: cs) then
      removeAllAux needle fuel ((c :: cs).drop needle.length)
    else
      c :: removeAllAux needle fuel cs

def removeAll (hay needle : Str) : Str := removeAllAux needle hay.length hay

/-- Python `s.split(sep)` for a single-character separator. -/
def splitChar (sep : Char) (s : Str) : List Str :=
  s.foldr (fun c acc =>
    match acc with
    | [] => [[c]]
    | cur :: rest => if c = sep then [] :: cur :: rest else (c :: cur) :: rest) [[]]

/-- Python `s.lower()` (ASCII). -/
def lowerStr (s : Str) : Str := s.map Char.toLower

/-- Python `s.startswith(p)`. -/
def startsWith (s p : Str) : Bool := p.isPrefixOf s

/-- Python `s.endswith(p)`. -/
def endsWith (s p : Str) : Bool := p.reverse.isPrefixOf s.reverse

/-! ## Python dicts as insertion-ordered association lists -/

/-- Values stored in chunk/record metadata dicts.  The repository only puts
strings there (source filename, document type, chunk text), so values are
modelled as strings. -/
abbrev Meta := List (Str × Str)

/-- `d[k] = v` on a Python dict: update in place if the key exists,
otherwise append. -/
def dictSet (d : Meta) (k v : Str) : Meta :=
  if d.any (fun kv => kv.1 = k) then
    d.map (fun kv => if kv.1 = k then (k, v) else kv)
  else d ++ [(k, v)]

/-- `d.get(k)` on a Python dict (first binding wins; dicts built by
`dictSet` have unique keys). -/
def dictGet (d : Meta) (k : Str) : Option Str :=
  (d.find? (fun kv => kv.1 = k)).map (·.2)

/-- `d.pop(k, default)`'s effect on the dict: remove the key. -/
def dictRemove (d : Meta) (k : Str) : Meta := d.filter (fun kv => kv.1 ≠ k)

/-- Membership test `k in d`. -/
def dictHas (d : Meta) (k : Str) : Bool := d.any (fun kv => kv.1 = k)

/-! ## Embeddings (`backend/core/embeddings.py`)

`EmbeddingGenerator` wraps an opaque `SentenceTransformer` model; the model
itself is the parameter `embed : Str → Vec` below (one vector per text,
deterministic — the collaborator contract from the spec). -/

abbrev Vec := List ℚ

/-- `EmbeddingGenerator.get_embedding`: zero vector for empty/whitespace-only
text, otherwise the model's encoding of the text. -/
def getEmbedding (embed : Str → Vec) (dim : Nat) (text : Str) : Vec :=
  if pyStrip text = [] then List.replicate dim 0 else embed text

/-- `EmbeddingGenerator.get_embeddings`: `np.array([])` for an empty batch,
otherwise one row per text. -/
def getEmbeddings (embed : Str → Vec) (texts : List Str) : List Vec :=
  if texts = [] then [] else texts.map embed

/-! ## The FAISS flat L2 index (external library)

`faiss.IndexFlatL2` performs exact exhaustive squared-Euclidean
nearest-neighbour search over the stored rows.  `index.search(q, k)` returns
`k` (distance, label) columns: the stored rows ranked ascending by squared-L2
distance to the query (ties resolved towards the earlier-inserted row), and,
when `k` exceeds `ntotal`, the remaining columns padded with label `-1`
(whose distance slot the caller never reads — the Python code filters
`idx >= 0`). -/

/-- Squared Euclidean distance between two float rows. -/
def sqDist (a b : Vec) : ℚ := ((a.zip b).map (fun p => (p.1 - p.2) ^ 2)).sum

/-- Ranking order used by the flat index: ascending distance, ties towards the
smaller (earlier-inserted) label. -/
def pairLe (p q : ℚ × Int) : Prop := p.1 < q.1 ∨ (p.1 = q.1 ∧ p.2 ≤ q.2)

instance : DecidableRel pairLe := fun p q => by unfold pairLe; infer_instance

instance : IsTotal (ℚ × Int) pairLe where
  total p q := by
    rcases lt_trichotomy p.1 q.1 with h | h | h
    · exact Or.inl (Or.inl h)
    · rcases le_total p.2 q.2 with h2 | h2
      · exact Or.inl (Or.inr ⟨h, h2⟩)
      · exact Or.inr (Or.inr ⟨h.symm, h2⟩)
    · exact Or.inr (Or.inl h)

instance : IsTrans (ℚ × Int) pairLe where
  trans p q r h1 h2 := by
    rcases h1 with h1 | ⟨e1, l1⟩
    · rcases h2 with h2 | ⟨e2, _⟩
      · exact Or.inl (h1.trans h2)
      · exact Or.inl (e2 ▸ h1)
    · rcases h2 with h2 | ⟨e2, l2⟩
      · exact Or.inl (e1 ▸ h2)
      · exact Or.inr ⟨e1.trans e2, l1.trans l2⟩

/-- The (distance, label) pair of every stored row against a query. -/
def pairsOf (qv : Vec) (vecs : List Vec) : List (ℚ × Int) :=
  (List.range vecs.length).map (fun i => (sqDist qv (vecs.getD i []), (i : Int)))

/-- `faiss.IndexFlatL2.search` on an index holding `vecs` (in insertion
order): distances to every stored row, ranked by `pairLe`, first `k` columns
returned, padded with label `-1` past `ntotal`. -/
def faissKnn (qv : Vec) (vecs : List Vec) (k : Nat) : List (ℚ × Int) :=
  (List.insertionSort pairLe (pairsOf qv vecs)).take k ++
    List.replicate (k - vecs.length) (0, -1)

/-! ## The vector database (`backend/core/vectordb.py`) -/

/-- One ingestion chunk: `{"text": ..., "metadata": {...}}`. -/
structure Chunk where
  text : Str
  metadata : Meta
  deriving DecidableEq, Repr

/-- In-memory state of a `VectorDB`: the FAISS index contents (`ntotal` rows
of the configured dimension) and the parallel Python metadata list. -/
structure DB where
  dimension : Nat
  vectors : List Vec
  metadata : List Meta
  deriving DecidableEq, Repr

/-- The two on-disk artifacts at the configured base path:
`<path>.index` (FAISS blob, storing the rows) and `<path>.metadata.json`. -/
structure Disk where
  indexFile : Option (List Vec)
  metadataFile : Option (List Meta)
  deriving DecidableEq, Repr

def emptyDB (dim : Nat) : DB := ⟨dim, [], []⟩

def emptyDisk : Disk := ⟨none, none⟩

/-- A search hit as returned by `VectorDB.search`. -/
structure SearchResult where
  text : Str
  metadata : Meta
  score : ℚ
  deriving DecidableEq, Repr

/-- The `"text"` key under which the chunk content is stored in metadata. -/
def textKey : Str := ['t', 'e', 'x', 't']

/-- `{"text": chunk["text"], **chunk["metadata"]}`. -/
def withText (c : Chunk) : Meta :=
  c.metadata.foldl (fun d kv => dictSet d kv.1 kv.2) [(textKey, c.text)]

/-- `VectorDB.persist`: write both artifacts (FAISS blob + JSON sidecar).
`faiss.write_index`/`read_index` round-trip the float32 rows exactly, and
`json.dump`/`load` round-trip the string-valued metadata dicts exactly, so
the artifacts are modelled by the arrays themselves. -/
def persist (db : DB) (_disk : Disk) : Disk :=
  { indexFile := some db.vectors, metadataFile := some db.metadata }

inductive AddError where
  /-- `faiss`/`numpy` reject rows that do not match the index dimension
  (`index.add` asserts `d == self.d`; ragged batches fail `astype`). -/
  | dimensionMismatch
  deriving DecidableEq, Repr

/-- `VectorDB.add_documents`.  Empty input returns immediately; a batch whose
embedding matrix has `size == 0` returns immediately; otherwise the rows are
appended to the FAISS index (which rejects wrong-dimension rows before
appending anything), the metadata (with the chunk text merged in) is appended,
and the database is auto-persisted. -/
def addDocuments (embed : Str → Vec) (db : DB) (disk : Disk)
    (chunks : List Chunk) : Except AddError (DB × Disk) :=
  if chunks = [] then .ok (db, disk)
  else if ((getEmbeddings embed (chunks.map (·.text))).map List.length).sum = 0 then
    .ok (db, disk)
  else if (getEmbeddings embed (chunks.map (·.text))).all
      (fun e => e.length = db.dimension) then
    .ok ({ db with
            vectors := db.vectors ++ getEmbeddings embed (chunks.map (·.text)),
            metadata := db.metadata ++ chunks.map withText },
         persist { db with
            vectors := db.vectors ++ getEmbeddings embed (chunks.map (·.text)),
            metadata := db.metadata ++ chunks.map withText } disk)
  else .error .dimensionMismatch

/-- `VectorDB.search`: empty index short-circuits to `[]`; otherwise embed the
query, run the FAISS k-NN, and keep the hits with `0 <= idx < len(metadata)`,
popping the `"text"` field out of a copy of the stored metadata dict. -/
def search (embed : Str → Vec) (db : DB) (q : Str) (k : Nat) : List SearchResult :=
  if db.vectors.length = 0 then []
  else
    (faissKnn (getEmbedding embed db.dimension q) db.vectors k).filterMap (fun di =>
      if 0 ≤ di.2 ∧ di.2.toNat < db.metadata.length then
        some { text := (dictGet (db.metadata.getD di.2.toNat []) textKey).getD []
               metadata := dictRemove (db.metadata.getD di.2.toNat []) textKey
               score := di.1 }
      else none)

inductive LoadError where
  /-- `FileNotFoundError` when `<path>.index` is missing. -/
  | fileNotFound
  deriving DecidableEq, Repr

/-- `VectorDB.load`: fail if the FAISS blob is missing; otherwise install its
rows and the JSON sidecar's dicts (an absent sidecar yields `[]`).  No
cross-validation of the two artifacts is performed. -/
def load (db : DB) (disk : Disk) : Except LoadError DB :=
  match disk.indexFile with
  | none => .error .fileNotFound
  | some vecs =>
    .ok { db with vectors := vecs, metadata := disk.metadataFile.getD [] }

/-- `VectorDB.__init__` / `_initialize_index` for a fresh instance at a path:
load if `<path>.index` exists, otherwise start from an empty flat index. -/
def initDB (dim : Nat) (disk : Disk) : Except LoadError DB :=
  if disk.indexFile.isSome then load (emptyDB dim) disk else .ok (emptyDB dim)

/-- `VectorDB.get_stats` (the fields the claims mention). -/
structure Stats where
  totalDocuments : Nat
  dimension : Nat
  deriving DecidableEq, Repr

def getStats (db : DB) : Stats :=
  { totalDocuments := db.vectors.length, dimension := db.dimension }

/-- The `/api/ingestion/clear` endpoint: a no-op when the index is already
empty, otherwise both artifacts are deleted and `_initialize_index` rebuilds
an empty index (the blob is now gone, so no load happens). -/
def clearKB (db : DB) (disk : Disk) : DB × Disk :=
  if db.vectors.length = 0 then (db, disk)
  else (emptyDB db.dimension, emptyDisk)

/-! ## Operation sequences on a `VectorDB` -/

inductive Op where
  | add (chunks : List Chunk)
  | search (q : Str) (k : Nat)
  | persist
  | load
  | clear
  deriving Repr

/-- One operation on the (database, disk) configuration.  A failing `add`
(dimension mismatch) or `load` (missing blob) raises in Python before any
state mutation, so it leaves the configuration unchanged. -/
def step (embed : Str → Vec) (c : DB × Disk) : Op → DB × Disk
  | .add chunks =>
    match addDocuments embed c.1 c.2 chunks with
    | .ok c' => c'
    | .error _ => c
  | .search _ _ => c
  | .persist => (c.1, persist c.1 c.2)
  | .load =>
    match load c.1 c.2 with
    | .ok db' => (db', c.2)
    | .error _ => c
  | .clear => clearKB c.1 c.2

/-- Run a sequence of operations from a freshly created database
(no pre-existing artifacts on disk). -/
def run (embed : Str → Vec) (dim : Nat) (ops : List Op) : DB × Disk :=
  ops.foldl (step embed) (emptyDB dim, emptyDisk)

/-! ## Specification-side views of `search` -/

/-- The squared-L2 score of stored entry `i` against query `q`. -/
def scoreAt (embed : Str → Vec) (db : DB) (q : Str) (i : Nat) : ℚ :=
  sqDist (getEmbedding embed db.dimension q) (db.vectors.getD i [])

/-- The `SearchResult` that entry `i` produces: its stored text, its metadata
without the text field, and its score. -/
def resultOf (embed : Str → Vec) (db : DB) (q : Str) (i : Nat) : SearchResult :=
  { text := (dictGet (db.metadata.getD i []) textKey).getD []
    metadata := dictRemove (db.metadata.getD i []) textKey
    score := scoreAt embed db q i }

/-- Entry `i` strictly precedes entry `j` in the ranking for query `q`:
strictly smaller score, or equal score and earlier insertion. -/
def rankLt (embed : Str → Vec) (db : DB) (q : Str) (i j : Nat) : Prop :=
  scoreAt embed db q i < scoreAt embed db q j ∨
    (scoreAt embed db q i = scoreAt embed db q j ∧ i < j)

/-- What claim C1 asserts of `search embed db q k`: the empty index yields
`[]`; the result size is `k` clamped to the number of entries; and the
results are exactly a selection of entry indices that is ranked (ascending
score, ties to the earlier entry) and dominates every non-selected entry. -/
def SearchSpec (embed : Str → Vec) (db : DB) (q : Str) (k : Nat) : Prop :=
  (db.vectors = [] → search embed db q k = []) ∧
  (search embed db q k).length = min k db.vectors.length ∧
  ∃ sel : List Nat,
    search embed db q k = sel.map (resultOf embed db q) ∧
    (∀ i ∈ sel, i < db.vectors.length) ∧
    sel.Pairwise (rankLt embed db q) ∧
    (∀ i ∈ sel, ∀ j, j < db.vectors.length → j ∉ sel → rankLt embed db q i j)

/-! ## Auxiliary list lemmas -/

theorem filterMap_eq_map_of_forall {α β : Type _} (f : α → Option β) (g : α → β) :
    ∀ l : List α, (∀ x ∈ l, f x = some (g x)) → l.filterMap f = l.map g
  | [], _ => rfl
  | x :: xs, h => by
    rw [List.filterMap_cons, h x (List.mem_cons_self x xs), List.map_cons,
      filterMap_eq_map_of_forall f g xs (fun y hy => h y (List.mem_cons_of_mem _ hy))]

theorem filterMap_replicate_none {α β : Type _} (f : α → Option β) (a : α)
    (h : f a = none) : ∀ n, (List.replicate n a).filterMap f = []
  | 0 => rfl
  | n + 1 => by
    rw [List.replicate_succ, List.filterMap_cons, h,
      filterMap_replicate_none f a h n]

/-- Every element of the ranked pair list is the (score, label) pair of some
stored entry. -/
theorem mem_sortedPairs {qv : Vec} {vecs : List Vec} {p : ℚ × Int}
    (hp : p ∈ List.insertionSort pairLe (pairsOf qv vecs)) :
    ∃ i, i < vecs.length ∧ p = (sqDist qv (vecs.getD i []), (i : Int)) := by
  have := List.mem_insertionSort pairLe |>.mp hp
  simp only [pairsOf, List.mem_map, List.mem_range] at this
  obtain ⟨i, hi, he⟩ := this
  exact ⟨i, hi, he.symm⟩

theorem length_sortedPairs (qv : Vec) (vecs : List Vec) :
    (List.insertionSort pairLe (pairsOf qv vecs)).length = vecs.length := by
  rw [(List.perm_insertionSort pairLe (pairsOf qv vecs)).length_eq]
  simp [pairsOf]

theorem nodup_sortedPairs_snd (qv : Vec) (vecs : List Vec) :
    ((List.insertionSort pairLe (pairsOf qv vecs)).map Prod.snd).Nodup := by
  have hperm : ((List.insertionSort pairLe (pairsOf qv vecs)).map Prod.snd).Perm
      ((pairsOf qv vecs).map Prod.snd) :=
    (List.perm_insertionSort pairLe (pairsOf qv vecs)).map Prod.snd
  rw [hperm.nodup_iff]
  have : (pairsOf qv vecs).map Prod.snd
      = (List.range vecs.length).map Int.ofNat := by
    rw [pairsOf, List.map_map]; rfl
  rw [this]
  exact (List.nodup_range vecs.length).map (fun a b h => Int.ofNat.inj h)

/-- **C1.**  For every index state and every query, `search(query, k)` returns
the `k` stored entries with smallest squared-Euclidean distance to the query
embedding, sorted ascending by score, ties broken by insertion order; `k` is
clamped to the number of stored entries; an empty index yields the empty
sequence rather than an error. -/
theorem search_returns_k_nearest (embed : Str → Vec) (db : DB) (q : Str) (k : Nat)
    (hwf : db.vectors.length = db.metadata.length) :
    SearchSpec embed db q k := by
  by_cases hn : db.vectors.length = 0
  · have hempty : search embed db q k = [] := by unfold search; rw [if_pos hn]
    refine ⟨fun _ => hempty, by rw [hempty, hn]; simp, [], by rw [hempty]; rfl,
      ?_, List.Pairwise.nil, ?_⟩
    · intro i hi; cases hi
    · intro i hi; cases hi
  · set qe := getEmbedding embed db.dimension q with hqe
    set S := List.insertionSort pairLe (pairsOf qe db.vectors) with hSdef
    have hlenS : S.length = db.vectors.length := length_sortedPairs qe db.vectors
    have hs : S.Pairwise pairLe := List.sorted_insertionSort pairLe _
    have hcond : ∀ p ∈ S.take k,
        (if 0 ≤ p.2 ∧ p.2.toNat < db.metadata.length then
          some { text := (dictGet (db.metadata.getD p.2.toNat []) textKey).getD []
                 metadata := dictRemove (db.metadata.getD p.2.toNat []) textKey
                 score := p.1 }
        else none)
        = some (resultOf embed db q p.2.toNat) := by
      intro p hp
      obtain ⟨i, hi, rfl⟩ := mem_sortedPairs (List.mem_of_mem_take hp)
      rw [if_pos ⟨Int.ofNat_nonneg i, by simpa [← hwf] using hi⟩]
      simp [resultOf, scoreAt, hqe]
    have hsearch : search embed db q k
        = (S.take k).map (fun p => resultOf embed db q p.2.toNat) := by
      unfold search
      rw [if_neg hn]
      unfold faissKnn
      rw [List.filterMap_append, filterMap_replicate_none _ _ (by norm_num),
        List.append_nil]
      exact filterMap_eq_map_of_forall _ _ _ hcond
    refine ⟨fun h => absurd (by rw [h]; rfl) hn, ?_, (S.take k).map (fun p => p.2.toNat),
      by rw [hsearch, List.map_map]; rfl, ?_, ?_, ?_⟩
    · rw [hsearch, List.length_map, List.length_take, hlenS]
    · intro i hi
      obtain ⟨p, hp, rfl⟩ := List.mem_map.mp hi
      obtain ⟨j, hj, rfl⟩ := mem_sortedPairs (List.mem_of_mem_take hp)
      simpa using hj
    · have hne : S.Pairwise (fun p q : ℚ × Int => p.2 ≠ q.2) :=
        List.pairwise_map.mp (nodup_sortedPairs_snd qe db.vectors)
      have hcomb := (hs.and hne).sublist (List.take_sublist k S)
      rw [List.pairwise_map]
      refine hcomb.imp_of_mem ?_
      intro p p' hp hp' hpq
      obtain ⟨i, hi, rfl⟩ := mem_sortedPairs (List.mem_of_mem_take hp)
      obtain ⟨j, hj, rfl⟩ := mem_sortedPairs (List.mem_of_mem_take hp')
      simp only [Int.toNat_ofNat]
      obtain ⟨hle | ⟨heq, hle2⟩, hne2⟩ := hpq
      · exact Or.inl hle
      · refine Or.inr ⟨heq, ?_⟩
        have : (i : Int) ≠ (j : Int) := hne2
        omega
    · intro i hi j hj hnotin
      obtain ⟨p, hp, rfl⟩ := List.mem_map.mp hi
      obtain ⟨i', hi', rfl⟩ := mem_sortedPairs (List.mem_of_mem_take hp)
      simp only [Int.toNat_ofNat] at hnotin ⊢
      have hmemj : (sqDist qe (db.vectors.getD j []), (j : Int)) ∈ S := by
        rw [hSdef, List.mem_insertionSort]
        unfold pairsOf
        exact List.mem_map.mpr ⟨j, List.mem_range.mpr hj, rfl⟩
      have hsplitmem : (sqDist qe (db.vectors.getD j []), (j : Int))
          ∈ S.take k ++ S.drop k := by rw [List.take_append_drop]; exact hmemj
      have hjdrop : (sqDist qe (db.vectors.getD j []), (j : Int)) ∈ S.drop k := by
        rcases List.mem_append.mp hsplitmem with h | h
        · exact absurd (List.mem_map.mpr ⟨_, h, by simp⟩) hnotin
        · exact h
      have hsAppend : (S.take k ++ S.drop k).Pairwise pairLe := by
        rw [List.take_append_drop]; exact hs
      have hsplit := (List.pairwise_append.mp hsAppend).2.2
      have hle := hsplit _ hp _ hjdrop
      have hij : i' ≠ j := by
        rintro rfl
        exact hnotin (List.mem_map.mpr ⟨_, hp, by simp⟩)
      obtain hlt | ⟨heq, hle2⟩ := hle
      · exact Or.inl hlt
      · refine Or.inr ⟨heq, ?_⟩
        have : (i' : Int) ≤ (j : Int) := hle2
        omega

/-! ## Shape lemmas about `addDocuments` and `step` -/

/-- A successful `add_documents` either left everything unchanged (empty batch
or empty embedding output) or appended the whole batch and auto-persisted:
there is no partial append. -/
theorem addDocuments_ok {embed : Str → Vec} {db : DB} {disk : Disk}
    {chunks : List Chunk} {db' : DB} {disk' : Disk}
    (h : addDocuments embed db disk chunks = .ok (db', disk')) :
    (db' = db ∧ disk' = disk) ∨
    (db'.dimension = db.dimension ∧
     db'.vectors = db.vectors ++ (chunks.map (·.text)).map embed ∧
     db'.metadata = db.metadata ++ chunks.map withText ∧
     disk' = persist db' disk ∧ chunks ≠ []) := by
  unfold addDocuments at h
  split at h
  · simp only [Except.ok.injEq, Prod.mk.injEq] at h
    exact Or.inl ⟨h.1.symm, h.2.symm⟩
  · rename_i hch
    split at h
    · simp only [Except.ok.injEq, Prod.mk.injEq] at h
      exact Or.inl ⟨h.1.symm, h.2.symm⟩
    · split at h
      · simp only [Except.ok.injEq, Prod.mk.injEq] at h
        refine Or.inr ?_
        rw [← h.1, ← h.2]
        refine ⟨rfl, ?_, rfl, rfl, hch⟩
        simp only [getEmbeddings]
        rw [if_neg (by simpa using hch)]
      · cases h

theorem step_dimension (embed : Str → Vec) (c : DB × Disk) (op : Op) :
    (step embed c op).1.dimension = c.1.dimension := by
  cases op with
  | add chunks =>
    simp only [step]
    rcases hA : addDocuments embed c.1 c.2 chunks with e | c'
    · rfl
    · obtain ⟨db', disk'⟩ := c'
      rcases addDocuments_ok hA with ⟨h1, _⟩ | ⟨h1, _⟩
      · rw [h1]
      · exact h1
  | search q k => rfl
  | persist => rfl
  | load =>
    simp only [step]
    rcases hL : load c.1 c.2 with e | db'
    · rfl
    · unfold load at hL
      split at hL
      · cases hL
      · simp only [Except.ok.injEq] at hL
        rw [← hL]
  | clear =>
    simp only [step, clearKB]
    split
    · rfl
    · rfl

theorem run_dimension (embed : Str → Vec) (dim : Nat) (ops : List Op) :
    (run embed dim ops).1.dimension = dim := by
  suffices h : ∀ c : DB × Disk, (ops.foldl (step embed) c).1.dimension = c.1.dimension by
    exact h (emptyDB dim, emptyDisk)
  induction ops with
  | nil => intro c; rfl
  | cons op rest ih =>
    intro c
    rw [List.foldl_cons, ih (step embed c op), step_dimension]

/-- **C2.**  For every index state reached by a sequence of `add` calls and
every query and `k`: calling `persist()` and then loading a fresh index
instance configured with the same path yields `search(query, k)` results
identical (same scores, same order) to those before persisting. -/
theorem persist_load_roundtrip (embed : Str → Vec) (dim : Nat)
    (batches : List (List Chunk)) (q : Str) (k : Nat) :
    (initDB dim (persist (run embed dim (batches.map Op.add)).1
        (run embed dim (batches.map Op.add)).2)).map
      (fun db2 => search embed db2 q k)
    = .ok (search embed (run embed dim (batches.map Op.add)).1 q k) := by
  have hdim := run_dimension embed dim (batches.map Op.add)
  set c := run embed dim (batches.map Op.add) with hc
  have hinit : initDB dim (persist c.1 c.2)
      = .ok ⟨dim, c.1.vectors, c.1.metadata⟩ := by
    simp [initDB, persist, load, emptyDB]
  rw [hinit]
  show Except.ok (search embed ⟨dim, c.1.vectors, c.1.metadata⟩ q k) = _
  congr 1
  rw [← hdim]

/-! ## Error behaviour of `add_documents` (claim C3) -/

/-- What actually holds of `add_documents` (claim C3 amended): an empty batch
is a no-op; a batch for which the provider returns empty output for every
chunk is a *silent* no-op (no error is raised); a batch whose embedding
matrix is non-empty but contains a row of the wrong dimension is rejected
with an error before anything is appended; and every successful call either
changed nothing or appended the entire batch to both parallel arrays. -/
def AddDocumentsSpec (embed : Str → Vec) (db : DB) (disk : Disk)
    (chunks : List Chunk) : Prop :=
  (chunks = [] → addDocuments embed db disk chunks = .ok (db, disk)) ∧
  ((∀ ch ∈ chunks, embed ch.text = []) →
    addDocuments embed db disk chunks = .ok (db, disk)) ∧
  ((((getEmbeddings embed (chunks.map (·.text))).map List.length).sum ≠ 0) →
    (∃ e ∈ getEmbeddings embed (chunks.map (·.text)), e.length ≠ db.dimension) →
    addDocuments embed db disk chunks = .error .dimensionMismatch) ∧
  (∀ db' disk', addDocuments embed db disk chunks = .ok (db', disk') →
    (db' = db ∧ disk' = disk) ∨
    (db'.vectors.length = db.vectors.length + chunks.length ∧
     db'.metadata.length = db.metadata.length + chunks.length))

/-- **C3 (counterexample).**  The provider returns empty output for the single
chunk of the batch, yet `add_documents` returns successfully as a silent
no-op — it does not fail with any error, refuting the claimed
`EmbeddingError`. -/
theorem add_empty_embedding_no_error :
    addDocuments (fun _ => []) (emptyDB 384) emptyDisk [⟨['h', 'i'], []⟩]
      = .ok (emptyDB 384, emptyDisk) ∧
    addDocuments (fun _ => []) (emptyDB 384) emptyDisk [⟨['h', 'i'], []⟩]
      ≠ .error .dimensionMismatch :=
  ⟨rfl, fun h => by
    rw [show addDocuments (fun _ => []) (emptyDB 384) emptyDisk [⟨['h', 'i'], []⟩]
        = .ok (emptyDB 384, emptyDisk) from rfl] at h
    exact Except.noConfusion h⟩

/-- **C3 (amended).**  `add_documents` on an empty batch is a no-op; on a
batch with all-empty embedding output it is a silent no-op rather than an
`EmbeddingError`; on a non-empty embedding matrix with a wrong-dimension row
it fails with an error and appends nothing; and successful calls append the
whole batch atomically to both arrays (or nothing at all). -/
theorem addDocuments_rejects_bad_batches (embed : Str → Vec) (db : DB)
    (disk : Disk) (chunks : List Chunk) : AddDocumentsSpec embed db disk chunks := by
  refine ⟨?_, ?_, ?_, ?_⟩
  · intro h
    unfold addDocuments
    rw [if_pos h]
  · intro h
    by_cases hch : chunks = []
    · unfold addDocuments; rw [if_pos hch]
    · have hsum : ((getEmbeddings embed (chunks.map (·.text))).map List.length).sum
          = 0 := by
        rw [List.sum_eq_zero_iff]
        intro x hx
        simp only [getEmbeddings, if_neg (by simpa using hch : ¬chunks.map (·.text) = []),
          List.map_map, List.mem_map] at hx
        obtain ⟨ch, hc, rfl⟩ := hx
        simp [Function.comp, h ch hc]
      unfold addDocuments
      rw [if_neg hch, if_pos hsum]
  · intro hsum hbad
    have hch : chunks ≠ [] := by
      intro h
      apply hsum
      subst h
      rfl
    have hall : ¬((getEmbeddings embed (chunks.map (·.text))).all
        (fun e => e.length = db.dimension) = true) := by
      rw [List.all_eq_true]
      push_neg
      obtain ⟨e, he, hne⟩ := hbad
      exact ⟨e, he, by simpa using hne⟩
    unfold addDocuments
    rw [if_neg hch, if_neg hsum, if_neg hall]
  · intro db' disk' h
    rcases addDocuments_ok h with ⟨h1, h2⟩ | ⟨_, hv, hm, _, _⟩
    · exact Or.inl ⟨h1, h2⟩
    · refine Or.inr ⟨?_, ?_⟩
      · rw [hv]; simp
      · rw [hm]; simp

/-- Concrete instance discharging the hypotheses of
`addDocuments_rejects_bad_batches` (wrong-dimension case). -/
theorem addDocuments_rejects_bad_batches_witness :
    ((((getEmbeddings (fun _ => [(0 : ℚ), 0])
          (([⟨['h'], []⟩] : List Chunk).map (·.text))).map List.length).sum ≠ 0) ∧
      (∃ e ∈ getEmbeddings (fun _ => [(0 : ℚ), 0])
        (([⟨['h'], []⟩] : List Chunk).map (·.text)), e.length ≠ (emptyDB 1).dimension)) ∧
    addDocuments (fun _ => [(0 : ℚ), 0]) (emptyDB 1) emptyDisk [⟨['h'], []⟩]
      = .error .dimensionMismatch :=
  ⟨⟨by decide, by decide⟩,
    (addDocuments_rejects_bad_batches (fun _ => [(0 : ℚ), 0]) (emptyDB 1)
      emptyDisk [⟨['h'], []⟩]).2.2.1 (by decide) (by decide)⟩

/-! ## The length invariant (claim C4) -/

/-- The invariant of claim C4: the in-memory parallel arrays agree in length,
and whenever the FAISS blob exists on disk, the metadata sidecar exists with
the same entry count. -/
def ConfigInv (c : DB × Disk) : Prop :=
  c.1.vectors.length = c.1.metadata.length ∧
  (∀ vs, c.2.indexFile = some vs →
    ∃ ms, c.2.metadataFile = some ms ∧ ms.length = vs.length)

theorem step_inv (embed : Str → Vec) (c : DB × Disk) (op : Op)
    (h : ConfigInv c) : ConfigInv (step embed c op) := by
  obtain ⟨h1, h2⟩ := h
  cases op with
  | add chunks =>
    simp only [step]
    rcases hA : addDocuments embed c.1 c.2 chunks with e | c'
    · exact ⟨h1, h2⟩
    · obtain ⟨db', disk'⟩ := c'
      rcases addDocuments_ok hA with ⟨hdb, hdk⟩ | ⟨_, hv, hm, hdk, _⟩
      · rw [hdb, hdk]; exact ⟨h1, h2⟩
      · have hlen' : db'.vectors.length = db'.metadata.length := by
          rw [hv, hm]; simp [h1]
        refine ⟨hlen', ?_⟩
        rw [hdk]
        intro vs hvs
        simp only [persist] at hvs ⊢
        cases hvs
        exact ⟨db'.metadata, rfl, hlen'.symm⟩
  | search q k => exact ⟨h1, h2⟩
  | persist =>
    refine ⟨h1, ?_⟩
    intro vs hvs
    simp only [step, persist] at hvs ⊢
    cases hvs
    exact ⟨c.1.metadata, rfl, h1.symm⟩
  | load =>
    simp only [step]
    rcases hL : load c.1 c.2 with e | db'
    · exact ⟨h1, h2⟩
    · unfold load at hL
      split at hL
      · cases hL
      · rename_i vs hvs
        obtain ⟨ms, hms, hlen⟩ := h2 vs hvs
        simp only [Except.ok.injEq] at hL
        subst hL
        exact ⟨by simp [hms, hlen], h2⟩
  | clear =>
    simp only [step, clearKB]
    split
    · exact ⟨h1, h2⟩
    · exact ⟨rfl, fun vs hvs => by cases hvs⟩

/-- **C4.**  `len(vectors) == len(metadata)` holds initially and is preserved
by every operation (add, search, persist, load, clear); and adding a batch of
`N` well-dimensioned chunks to an empty index yields `stats` reporting `N`
total entries with both parallel arrays of length `N`. -/
theorem length_invariant_and_stats (embed : Str → Vec) (dim : Nat) (ops : List Op) :
    ConfigInv (run embed dim ops) ∧
    (∀ chunks : List Chunk, 0 < dim → (∀ ch ∈ chunks, (embed ch.text).length = dim) →
      ∃ db' disk',
        addDocuments embed (emptyDB dim) emptyDisk chunks = .ok (db', disk') ∧
        (getStats db').totalDocuments = chunks.length ∧
        db'.vectors.length = db'.metadata.length) := by
  constructor
  · have hfold : ∀ (l : List Op) (c), ConfigInv c → ConfigInv (l.foldl (step embed) c) := by
      intro l
      induction l with
      | nil => intro c h; exact h
      | cons op rest ih => intro c h; exact ih _ (step_inv embed c op h)
    exact hfold ops _ ⟨rfl, fun vs h => by cases h⟩
  · intro chunks hdim hall
    by_cases hch : chunks = []
    · subst hch
      exact ⟨emptyDB dim, emptyDisk, rfl, rfl, rfl⟩
    · have htexts : ¬chunks.map (·.text) = [] := by simpa using hch
      have hembs : getEmbeddings embed (chunks.map (·.text))
          = (chunks.map (·.text)).map embed := by
        unfold getEmbeddings; rw [if_neg htexts]
      have hsum : ¬(((getEmbeddings embed (chunks.map (·.text))).map List.length).sum
          = 0) := by
        intro h0
        rw [List.sum_eq_zero_iff] at h0
        obtain ⟨ch, hc⟩ := List.exists_mem_of_ne_nil chunks hch
        have hmem : (embed ch.text).length
            ∈ (getEmbeddings embed (chunks.map (·.text))).map List.length := by
          rw [hembs, List.map_map, List.map_map]
          exact List.mem_map.mpr ⟨ch, hc, rfl⟩
        have := h0 _ hmem
        rw [hall ch hc] at this
        omega
      have hallemb : (getEmbeddings embed (chunks.map (·.text))).all
          (fun e => e.length = (emptyDB dim).dimension) = true := by
        rw [List.all_eq_true]
        intro e he
        rw [hembs] at he
        simp only [List.map_map, List.mem_map] at he
        obtain ⟨ch, hc, rfl⟩ := he
        simp [Function.comp, emptyDB, hall ch hc]
      have hstep : addDocuments embed (emptyDB dim) emptyDisk chunks
          = .ok ({ emptyDB dim with
                    vectors := (emptyDB dim).vectors
                      ++ getEmbeddings embed (chunks.map (·.text))
                    metadata := (emptyDB dim).metadata ++ chunks.map withText },
                 persist { emptyDB dim with
                    vectors := (emptyDB dim).vectors
                      ++ getEmbeddings embed (chunks.map (·.text))
                    metadata := (emptyDB dim).metadata ++ chunks.map withText }
                   emptyDisk) := by
        unfold addDocuments
        rw [if_neg hch, if_neg hsum, if_pos hallemb]
      refine ⟨_, _, hstep, ?_, ?_⟩
      · simp [getStats, emptyDB, hembs]
      · simp [emptyDB, hembs]

/-- Concrete instance discharging the hypotheses of
`length_invariant_and_stats`. -/
theorem length_invariant_and_stats_witness :
    (0 < 1 ∧ (∀ ch ∈ ([⟨['h'], []⟩] : List Chunk),
      ((fun _ => [(0 : ℚ)]) ch.text).length = 1)) ∧
    (∃ db' disk',
      addDocuments (fun _ => [(0 : ℚ)]) (emptyDB 1) emptyDisk [⟨['h'], []⟩]
        = .ok (db', disk') ∧
      (getStats db').totalDocuments = ([⟨['h'], []⟩] : List Chunk).length ∧
      db'.vectors.length = db'.metadata.length) :=
  ⟨⟨by decide, by decide⟩,
    (length_invariant_and_stats (fun _ => [(0 : ℚ)]) 1 []).2 [⟨['h'], []⟩]
      (by decide) (by decide)⟩

/-! ## `load` validation (claim C5) -/

/-- **C5 (counterexample).**  A disk whose FAISS blob holds one vector while
the metadata sidecar holds two entries loads successfully — `load` performs
no count validation, refuting the claimed `CorruptIndexError`. -/
theorem load_count_mismatch_cex :
    load (emptyDB 1) ⟨some [[0]], some [[], []]⟩
      = .ok ⟨1, [[0]], [[], []]⟩ ∧
    ([[(0 : ℚ)]] : List Vec).length ≠ ([[], []] : List Meta).length :=
  ⟨rfl, by decide⟩

/-- **C5 (amended).**  `load` fails only when the FAISS blob file is missing
(`FileNotFoundError`), leaving the in-memory index untouched; when the blob
exists it succeeds unconditionally, installing the blob's vectors and the
sidecar's metadata (empty when the sidecar is missing) with no
count-or-dimension validation whatsoever. -/
theorem load_never_validates (db : DB) (disk : Disk) :
    (disk.indexFile = none → load db disk = .error .fileNotFound) ∧
    (∀ vs, disk.indexFile = some vs →
      load db disk = .ok { db with
                           vectors := vs
                           metadata := disk.metadataFile.getD [] }) := by
  constructor
  · intro h
    unfold load
    rw [h]
  · intro vs h
    unfold load
    rw [h]

/-- Concrete instance discharging the hypothesis of `load_never_validates`. -/
theorem load_never_validates_witness :
    (emptyDisk.indexFile = none) ∧
    load (emptyDB 1) emptyDisk = .error .fileNotFound :=
  ⟨rfl, (load_never_validates (emptyDB 1) emptyDisk).1 rfl⟩

/-! ## Frame property of `search` (claim C10): dict identity made explicit

In Python, `self.metadata` is a list of references to dict objects, and the
result loop of `VectorDB.search` runs `metadata = self.metadata[idx].copy()`
followed by `metadata.pop("text", "")`, mutating only the fresh copy.  To
state that `search` never mutates the stored dicts, the pure model above is
refined into one with an explicit heap of dict objects, where `.copy()`
allocates and `.pop()` mutates in place. -/

/-- A heap of Python dict objects; an index into the heap is a reference. -/
abbrev Heap := List Meta

/-- A search hit holding a *reference* to its (copied, popped) metadata dict. -/
structure ResultRef where
  text : Str
  metadataRef : Nat
  score : ℚ
  deriving DecidableEq, Repr

/-- The database with its metadata list holding dict references, as Python
actually represents it. -/
structure DBRefs where
  dimension : Nat
  vectors : List Vec
  metadataRefs : List Nat
  deriving DecidableEq, Repr

/-- One iteration of the result loop of `VectorDB.search`:
`self.metadata[idx].copy()` allocates a fresh dict at the end of the heap,
and `.pop("text", "")` then mutates that fresh copy in place. -/
def searchHit (heap : Heap) (db : DBRefs) (di : ℚ × Int) :
    Option ResultRef × Heap :=
  if 0 ≤ di.2 ∧ di.2.toNat < db.metadataRefs.length then
    let stored := heap.getD (db.metadataRefs.getD di.2.toNat 0) []
    (some { text := (dictGet stored textKey).getD []
            metadataRef := heap.length
            score := di.1 },
     (heap ++ [stored]).set heap.length (dictRemove stored textKey))
  else (none, heap)

/-- The loop body: append the hit's result (if any) and thread the heap. -/
def collectHit (db : DBRefs) (acc : List ResultRef × Heap) (di : ℚ × Int) :
    List ResultRef × Heap :=
  match searchHit acc.2 db di with
  | (some r, heap') => (acc.1 ++ [r], heap')
  | (none, heap') => (acc.1, heap')

/-- `VectorDB.search` with explicit dict identity. -/
def searchH (embed : Str → Vec) (heap : Heap) (db : DBRefs) (q : Str) (k : Nat) :
    List ResultRef × Heap :=
  if db.vectors.length = 0 then ([], heap)
  else
    (faissKnn (getEmbedding embed db.dimension q) db.vectors k).foldl
      (collectHit db) ([], heap)

/-- Heap-threading invariant of the result loop: the heap only grows, every
pre-existing dict object is untouched, and every emitted result references a
dict (a popped copy) that carries no `"text"` key. -/
def HeapInv (heap0 : Heap) (acc : List ResultRef × Heap) : Prop :=
  heap0.length ≤ acc.2.length ∧
  (∀ i, i < heap0.length → acc.2.getD i [] = heap0.getD i []) ∧
  (∀ r ∈ acc.1, r.metadataRef < acc.2.length ∧
    dictGet (acc.2.getD r.metadataRef []) textKey = none)

theorem dictGet_dictRemove (d : Meta) (k : Str) :
    dictGet (dictRemove d k) k = none := by
  unfold dictGet dictRemove
  have hfind : (d.filter (fun kv => kv.1 ≠ k)).find? (fun kv => kv.1 = k) = none := by
    rw [List.find?_eq_none]
    intro kv hkv
    have := List.of_mem_filter hkv
    simpa using this
  rw [hfind]
  rfl

theorem searchHit_spec (heap : Heap) (db : DBRefs) (di : ℚ × Int) :
    searchHit heap db di = (none, heap) ∨
    ∃ stored, searchHit heap db di
      = (some { text := (dictGet stored textKey).getD []
                metadataRef := heap.length
                score := di.1 },
         (heap ++ [stored]).set heap.length (dictRemove stored textKey)) := by
  unfold searchHit
  split
  · exact Or.inr ⟨_, rfl⟩
  · exact Or.inl rfl

theorem collectHit_inv {db : DBRefs} {heap0 : Heap}
    {acc : List ResultRef × Heap} (di : ℚ × Int)
    (h : HeapInv heap0 acc) : HeapInv heap0 (collectHit db acc di) := by
  obtain ⟨hlen, hfr, hres⟩ := h
  rcases searchHit_spec acc.2 db di with hcase | ⟨stored, hcase⟩
  · have hcol : collectHit db acc di = (acc.1, acc.2) := by
      unfold collectHit
      rw [hcase]
    rw [hcol]
    exact ⟨hlen, hfr, hres⟩
  · have hcol : collectHit db acc di
        = (acc.1 ++ [{ text := (dictGet stored textKey).getD []
                       metadataRef := acc.2.length
                       score := di.1 }],
           (acc.2 ++ [stored]).set acc.2.length (dictRemove stored textKey)) := by
      unfold collectHit
      rw [hcase]
    rw [hcol]
    have hlen2 : ((acc.2 ++ [stored]).set acc.2.length
        (dictRemove stored textKey)).length = acc.2.length + 1 := by simp
    refine ⟨by simp only; omega, ?_, ?_⟩
    · intro i hi
      rw [List.getD_eq_getElem?_getD, List.getElem?_set_ne (by omega),
        ← List.getD_eq_getElem?_getD, List.getD_append _ _ _ _ (by omega)]
      exact hfr i hi
    · intro r hr
      rcases List.mem_append.mp hr with hr | hr
      · obtain ⟨hlt, hget⟩ := hres r hr
        refine ⟨by simp only; omega, ?_⟩
        rw [List.getD_eq_getElem?_getD, List.getElem?_set_ne (by omega),
          ← List.getD_eq_getElem?_getD, List.getD_append _ _ _ _ hlt]
        exact hget
      · rw [List.mem_singleton] at hr
        subst hr
        refine ⟨by simp only; omega, ?_⟩
        rw [List.getD_eq_getElem?_getD]
        rw [List.getElem?_set_self (by simp)]
        simp [dictGet_dictRemove]

/-- **C10.**  `search` never mutates the stored metadata: every dict object
that existed before the call (in particular every entry of `self.metadata`,
with its `"text"` field) is unchanged afterwards, because each result is
built from a fresh copy; and each returned result's metadata dict carries no
`"text"` key. -/
theorem search_never_mutates_metadata (embed : Str → Vec) (heap : Heap)
    (db : DBRefs) (q : Str) (k : Nat)
    (href : ∀ r ∈ db.metadataRefs, r < heap.length) :
    (∀ i, i < heap.length →
      (searchH embed heap db q k).2.getD i [] = heap.getD i []) ∧
    (∀ r ∈ db.metadataRefs,
      (searchH embed heap db q k).2.getD r [] = heap.getD r [] ∧
      dictGet ((searchH embed heap db q k).2.getD r []) textKey
        = dictGet (heap.getD r []) textKey) ∧
    (∀ res ∈ (searchH embed heap db q k).1,
      dictGet ((searchH embed heap db q k).2.getD res.metadataRef []) textKey
        = none) := by
  have hinv : HeapInv heap (searchH embed heap db q k) := by
    unfold searchH
    split
    · exact ⟨le_rfl, fun i _ => rfl, fun r hr => by cases hr⟩
    · have hfold : ∀ (hits : List (ℚ × Int)) (acc : List ResultRef × Heap),
          HeapInv heap acc → HeapInv heap (hits.foldl (collectHit db) acc) := by
        intro hits
        induction hits with
        | nil => intro acc h; exact h
        | cons hd tl ih => intro acc h; exact ih _ (collectHit_inv hd h)
      exact hfold _ _ ⟨le_rfl, fun i _ => rfl, fun r hr => by cases hr⟩
  obtain ⟨_, hfr, hres⟩ := hinv
  refine ⟨hfr, ?_, fun res hr => (hres res hr).2⟩
  intro r hr
  have := hfr r (href r hr)
  exact ⟨this, by rw [this]⟩

/-- Concrete instance discharging the hypothesis of
`search_never_mutates_metadata`. -/
theorem search_never_mutates_metadata_witness :
    (∀ r ∈ [0], r < ([[(textKey, ['t'])]] : Heap).length) ∧
    ((∀ i, i < ([[(textKey, ['t'])]] : Heap).length →
      (searchH (fun _ => [0]) [[(textKey, ['t'])]] ⟨1, [[0]], [0]⟩ ['q'] 1).2.getD i []
        = ([[(textKey, ['t'])]] : Heap).getD i []) ∧
    (∀ r ∈ [0],
      (searchH (fun _ => [0]) [[(textKey, ['t'])]] ⟨1, [[0]], [0]⟩ ['q'] 1).2.getD r []
        = ([[(textKey, ['t'])]] : Heap).getD r [] ∧
      dictGet ((searchH (fun _ => [0]) [[(textKey, ['t'])]] ⟨1, [[0]], [0]⟩ ['q'] 1).2.getD r [])
          textKey
        = dictGet (([[(textKey, ['t'])]] : Heap).getD r []) textKey) ∧
    (∀ res ∈ (searchH (fun _ => [0]) [[(textKey, ['t'])]] ⟨1, [[0]], [0]⟩ ['q'] 1).1,
      dictGet ((searchH (fun _ => [0]) [[(textKey, ['t'])]] ⟨1, [[0]], [0]⟩ ['q'] 1).2.getD
          res.metadataRef []) textKey = none)) :=
  ⟨by decide,
    search_never_mutates_metadata (fun _ => [0]) [[(textKey, ['t'])]]
      ⟨1, [[0]], [0]⟩ ['q'] 1 (by decide)⟩

/-! ## The chunker (`backend/core/chunking.py`, claim C9) -/

/-- `TextChunker.chunk_text`: empty or whitespace-only text yields `[]`;
otherwise the text is handed to the (external) langchain
`RecursiveCharacterTextSplitter` — the opaque parameter `split`, configured
with `(chunk_size, chunk_overlap)` — and each returned piece is stripped,
dropping pieces that are empty after stripping
(`[chunk.strip() for chunk in chunks if chunk.strip()]`). -/
def chunkText (split : Nat → Nat → Str → List Str) (size overlap : Nat)
    (text : Str) : List Str :=
  if pyStrip text = [] then []
  else (split size overlap text).filterMap (fun c =>
    if pyStrip c = [] then none else some (pyStrip c))

/-- Contract of `RecursiveCharacterTextSplitter.split_text` (external
collaborator): its pieces jointly cover the input's content, so an input with
non-whitespace content yields at least one piece with non-whitespace
content. -/
def SplitterCovers (split : Nat → Nat → Str → List Str) : Prop :=
  ∀ size overlap text, pyStrip text ≠ [] →
    ∃ c ∈ split size overlap text, pyStrip c ≠ []

theorem dropWhile_idem (p : Char → Bool) (l : Str) :
    (l.dropWhile p).dropWhile p = l.dropWhile p := by
  cases hd : l.dropWhile p with
  | nil => rfl
  | cons c cs =>
    have h1 : p ((l.dropWhile p).head (by rw [hd]; simp)) = false :=
      List.head_dropWhile_not p l _
    have h2 : p c = false := by
      have he : (l.dropWhile p).head (by rw [hd]; simp) = c := by simp [hd]
      rw [he] at h1
      exact h1
    rw [List.dropWhile_cons_of_neg (by simp [h2])]

theorem dropWhile_eq_self_of_head (p : Char → Bool) (l : Str)
    (h : ∀ c cs, l = c :: cs → p c = false) : l.dropWhile p = l := by
  cases l with
  | nil => rfl
  | cons c cs => rw [List.dropWhile_cons_of_neg (by simp [h c cs rfl])]

theorem pyStrip_idem (s : Str) : pyStrip (pyStrip s) = pyStrip s := by
  unfold pyStrip rstrip lstrip
  set A := s.dropWhile pyIsSpace with hA
  set B := A.reverse.dropWhile pyIsSpace with hB
  have hBB : B.reverse.dropWhile pyIsSpace = B.reverse := by
    apply dropWhile_eq_self_of_head
    intro c cs hc
    have hBne : B ≠ [] := by
      intro h0
      rw [h0] at hc
      cases hc
    have hAne : A ≠ [] := by
      intro h0
      apply hBne
      rw [hB, h0]
      rfl
    have hchain : some c = A.head? := by
      have h1 : B.reverse.head? = some c := by rw [hc]; rfl
      rw [List.head?_reverse] at h1
      obtain ⟨t, ht⟩ := List.dropWhile_suffix (l := A.reverse) (p := pyIsSpace)
      rw [← hB] at ht
      have h2 : A.reverse.getLast? = B.getLast? := by
        rw [← ht]
        exact List.getLast?_append_of_ne_nil t hBne
      rw [← h2, List.getLast?_reverse] at h1
      exact h1.symm
    have hAhead : pyIsSpace (A.head hAne) = false :=
      List.head_dropWhile_not pyIsSpace s _
    rw [List.head?_eq_head hAne] at hchain
    cases hchain
    exact hAhead
  rw [hBB, List.reverse_reverse, dropWhile_idem]

/-- **C9.**  For every `chunk_size > chunk_overlap ≥ 0` and any splitter
satisfying the collaborator contract: `chunk_text` of empty or
whitespace-only text is `[]`, and `chunk_text` of text with non-whitespace
content is non-empty, with every emitted chunk non-empty after trimming. -/
theorem chunkText_nonempty_chunks (split : Nat → Nat → Str → List Str)
    (size overlap : Nat) (text : Str)
    (_hso : overlap < size) (hcov : SplitterCovers split) :
    (pyStrip text = [] → chunkText split size overlap text = []) ∧
    (pyStrip text ≠ [] →
      chunkText split size overlap text ≠ [] ∧
      ∀ c ∈ chunkText split size overlap text, pyStrip c ≠ []) := by
  constructor
  · intro h
    unfold chunkText
    rw [if_pos h]
  · intro h
    have hch : chunkText split size overlap text
        = (split size overlap text).filterMap (fun c =>
            if pyStrip c = [] then none else some (pyStrip c)) := by
      unfold chunkText
      rw [if_neg h]
    constructor
    · obtain ⟨c, hc, hcs⟩ := hcov size overlap text h
      rw [hch]
      intro h0
      have : pyStrip c ∈ (split size overlap text).filterMap (fun c =>
          if pyStrip c = [] then none else some (pyStrip c)) :=
        List.mem_filterMap.mpr ⟨c, hc, by rw [if_neg hcs]⟩
      rw [h0] at this
      cases this
    · intro c hc
      rw [hch] at hc
      obtain ⟨c0, _, hc0⟩ := List.mem_filterMap.mp hc
      by_cases hs0 : pyStrip c0 = []
      · rw [if_pos hs0] at hc0
        cases hc0
      · rw [if_neg hs0] at hc0
        cases hc0
        rw [pyStrip_idem]
        exact hs0

/-- Concrete instance discharging the hypotheses of
`chunkText_nonempty_chunks`. -/
theorem chunkText_nonempty_chunks_witness :
    (0 < 2 ∧ SplitterCovers (fun _ _ t => [t])) ∧
    ((pyStrip ['h', 'i'] = [] → chunkText (fun _ _ t => [t]) 2 0 ['h', 'i'] = []) ∧
    (pyStrip ['h', 'i'] ≠ [] →
      chunkText (fun _ _ t => [t]) 2 0 ['h', 'i'] ≠ [] ∧
      ∀ c ∈ chunkText (fun _ _ t => [t]) 2 0 ['h', 'i'], pyStrip c ≠ [])) :=
  ⟨⟨by decide, fun _ _ text ht => ⟨text, List.mem_singleton_self text, ht⟩⟩,
    chunkText_nonempty_chunks (fun _ _ t => [t]) 2 0 ['h', 'i'] (by decide)
      (fun _ _ text ht => ⟨text, List.mem_singleton_self text, ht⟩)⟩

/-! ## JSON values and a model of `json.loads`

The extractor in `backend/api/generation.py` repeatedly calls `json.loads`
on candidate substrings.  `json.loads` is modelled by an executable
recursive-descent parser over `List Char`.  Number literals are kept as their
source token (the claims only compare parsed values for equality), and
duplicate object keys are kept in order (the claims' inputs have none). -/

/-- JSON values as produced by `json.loads`. -/
inductive J where
  | null
  | bool (b : Bool)
  | num (tok : Str)
  | str (s : Str)
  | arr (elems : List J)
  | obj (fields : List (Str × J))
  deriving Repr

/-- JSON whitespace (`json.loads` skips exactly space, tab, newline, CR). -/
def jsonWs (c : Char) : Bool := c = ' ' || c = '\t' || c = '\n' || c = '\r'

def skipJsonWs (s : Str) : Str := s.dropWhile jsonWs

def hexVal (c : Char) : Option Nat :=
  if '0' ≤ c ∧ c ≤ '9' then some (c.toNat - '0'.toNat)
  else if 'a' ≤ c ∧ c ≤ 'f' then some (c.toNat - 'a'.toNat + 10)
  else if 'A' ≤ c ∧ c ≤ 'F' then some (c.toNat - 'A'.toNat + 10)
  else none

/-- Body of a JSON string, after the opening quote: returns the decoded
content and the remainder after the closing quote.  Escapes are decoded; raw
control characters are rejected (`json.loads` is strict by default). -/
def parseStringBody : Nat → Str → Option (Str × Str)
  | 0, _ => none
  | _ + 1, [] => none
  | fuel + 1, c :: rest =>
    if c = '"' then some ([], rest)
    else if c = '\\' then
      match rest with
      | '"' :: r => (parseStringBody fuel r).map (fun p => ('"' :: p.1, p.2))
      | '\\' :: r => (parseStringBody fuel r).map (fun p => ('\\' :: p.1, p.2))
      | '/' :: r => (parseStringBody fuel r).map (fun p => ('/' :: p.1, p.2))
      | 'b' :: r => (parseStringBody fuel r).map (fun p => ('\x08' :: p.1, p.2))
      | 'f' :: r => (parseStringBody fuel r).map (fun p => ('\x0c' :: p.1, p.2))
      | 'n' :: r => (parseStringBody fuel r).map (fun p => ('\n' :: p.1, p.2))
      | 'r' :: r => (parseStringBody fuel r).map (fun p => ('\r' :: p.1, p.2))
      | 't' :: r => (parseStringBody fuel r).map (fun p => ('\t' :: p.1, p.2))
      | 'u' :: h1 :: h2 :: h3 :: h4 :: r =>
        match hexVal h1, hexVal h2, hexVal h3, hexVal h4 with
        | some a, some b, some cc, some d =>
          (parseStringBody fuel r).map
            (fun p => (Char.ofNat (((a * 16 + b) * 16 + cc) * 16 + d) :: p.1, p.2))
        | _, _, _, _ => none
      | _ => none
    else if c.toNat < 32 then none
    else (parseStringBody fuel rest).map (fun p => (c :: p.1, p.2))

/-- A JSON number token: `-?(0|[1-9][0-9]*)(\.[0-9]+)?([eE][+-]?[0-9]+)?`.
Returns the token and the remainder. -/
def parseNumberTok (s : Str) : Option (Str × Str) :=
  let (sign, s1) := match s with
    | '-' :: r => (['-'], r)
    | _ => (([] : Str), s)
  let intDigits := s1.takeWhile Char.isDigit
  if intDigits = [] then none
  else if intDigits.length > 1 ∧ intDigits.headD '0' = '0' then none
  else
    let s2 := s1.drop intDigits.length
    let (fracPart, s3) := match s2 with
      | '.' :: r =>
        let fd := r.takeWhile Char.isDigit
        if fd = [] then (([] : Str), s2) else ('.' :: fd, r.drop fd.length)
      | _ => (([] : Str), s2)
    if s2 ≠ [] ∧ s2.headD ' ' = '.' ∧ fracPart = [] then none
    else
      let (expPart, s4) := match s3 with
        | e :: r =>
          if e = 'e' ∨ e = 'E' then
            match r with
            | sgn :: r2 =>
              if sgn = '+' ∨ sgn = '-' then
                let ed := r2.takeWhile Char.isDigit
                if ed = [] then (([] : Str), s3)
                else (e :: sgn :: ed, r2.drop ed.length)
              else
                let ed := r.takeWhile Char.isDigit
                if ed = [] then (([] : Str), s3)
                else (e :: ed, r.drop ed.length)
            | [] => (([] : Str), s3)
          else (([] : Str), s3)
        | [] => (([] : Str), s3)
      some (sign ++ intDigits ++ fracPart ++ expPart, s4)

mutual

/-- One JSON value (with leading whitespace skipped), returning the value and
the unconsumed remainder. -/
def parseVal : Nat → Str → Option (J × Str)
  | 0, _ => none
  | fuel + 1, s =>
    match skipJsonWs s with
    | [] => none
    | '\x7b' :: rest => parseObj fuel rest
    | '[' :: rest => parseArr fuel rest
    | '"' :: rest =>
      match parseStringBody (rest.length + 1) rest with
      | some (str, r) => some (J.str str, r)
      | none => none
    | c :: rest =>
      if c = 't' then
        if ['r', 'u', 'e'].isPrefixOf rest then some (J.bool true, rest.drop 3)
        else none
      else if c = 'f' then
        if ['a', 'l', 's', 'e'].isPrefixOf rest then some (J.bool false, rest.drop 4)
        else none
      else if c = 'n' then
        if ['u', 'l', 'l'].isPrefixOf rest then some (J.null, rest.drop 3)
        else none
      else
        match parseNumberTok (c :: rest) with
        | some (tok, r) => some (J.num tok, r)
        | none => none

/-- Array elements, after the opening `[`. -/
def parseArr : Nat → Str → Option (J × Str)
  | 0, _ => none
  | fuel + 1, s =>
    match skipJsonWs s with
    | ']' :: r => some (J.arr [], r)
    | s' =>
      match parseVal fuel s' with
      | some (v, r) => parseArrRest fuel [v] r
      | none => none

/-- Continuation of an array after at least one element. -/
def parseArrRest : Nat → List J → Str → Option (J × Str)
  | 0, _, _ => none
  | fuel + 1, acc, s =>
    match skipJsonWs s with
    | ',' :: r =>
      match parseVal fuel r with
      | some (v, r2) => parseArrRest fuel (acc ++ [v]) r2
      | none => none
    | ']' :: r => some (J.arr acc, r)
    | _ => none

/-- One `"key": value` member. -/
def parseMember : Nat → Str → Option ((Str × J) × Str)
  | 0, _ => none
  | fuel + 1, s =>
    match skipJsonWs s with
    | '"' :: rest =>
      match parseStringBody (rest.length + 1) rest with
      | some (key, r) =>
        match skipJsonWs r with
        | ':' :: r2 =>
          match parseVal fuel r2 with
          | some (v, r3) => some ((key, v), r3)
          | none => none
        | _ => none
      | none => none
    | _ => none

/-- Object members, after the opening brace. -/
def parseObj : Nat → Str → Option (J × Str)
  | 0, _ => none
  | fuel + 1, s =>
    match skipJsonWs s with
    | '\x7d' :: r => some (J.obj [], r)
    | s' =>
      match parseMember fuel s' with
      | some (kv, r) => parseObjRest fuel [kv] r
      | none => none

/-- Continuation of an object after at least one member. -/
def parseObjRest : Nat → List (Str × J) → Str → Option (J × Str)
  | 0, _, _ => none
  | fuel + 1, acc, s =>
    match skipJsonWs s with
    | ',' :: r =>
      match parseMember fuel r with
      | some (kv, r2) => parseObjRest fuel (acc ++ [kv]) r2
      | none => none
    | '\x7d' :: r => some (J.obj acc, r)
    | _ => none

end

/-- `json.loads`: parse one value and require only whitespace to remain. -/
def parseJson (s : Str) : Option J :=
  match parseVal (2 * s.length + 2) s with
  | some (v, rest) => if skipJsonWs rest = [] then some v else none
  | none => none

/-! ## The structured test-case extractor
(`generate_test_cases` in `backend/api/generation.py`, JSON output format) -/

/-- The backtick character (0x60). -/
def btick : Char := Char.ofNat 96

/-- The three-backtick fence marker. -/
def fence : Str := [btick, btick, btick]

/-- The fence marker with a `json` language tag. -/
def fenceJson : Str := [btick, btick, btick, 'j', 's', 'o', 'n']

/-- The cleanup the extractor applies to a candidate JSON span:
`.strip()` followed by `.lstrip('\n\r\t ').rstrip('\n\r\t ')`. -/
def stripJsonSpan (s : Str) : Str :=
  rstripChars ['\n', '\r', '\t', ' '] (lstripChars ['\n', '\r', '\t', ' '] (pyStrip s))

/-- Fence stripping (lines 546–567 of `generation.py`): strip the response;
cut out the content of the first fenced block when a fence marker is present
(or delete all markers when the block is unterminated); drop a trailing
fence; strip again. -/
def cleanResponse (s : Str) : Str :=
  let c0 := pyStrip s
  let c1 :=
    if containsSub c0 fenceJson then
      match findSub c0 fenceJson with
      | some st =>
        match findSubFrom c0 fence (st + 7) with
        | some e => pyStrip ((c0.take e).drop (st + 7))
        | none => pyStrip (removeAll c0 fenceJson)
      | none => c0
    else if containsSub c0 fence then
      match findSub c0 fence with
      | some st =>
        match findSubFrom c0 fence (st + 3) with
        | some e => pyStrip ((c0.take e).drop (st + 3))
        | none => pyStrip (removeAll c0 fence)
      | none => c0
    else c0
  let c2 := if endsWith c1 fence then pyStrip (c1.take (c1.length - 3)) else c1
  pyStrip c2

/-- The balanced-bracket scan: walk the text, incrementing on `[` and
decrementing on `]` (ignoring string literals!), and report the position one
past the bracket where the depth returns to zero. -/
def scanBalancedAux : Str → Int → Nat → Option Nat
  | [], _, _ => none
  | c :: rest, depth, i =>
    if c = '[' then scanBalancedAux rest (depth + 1) (i + 1)
    else if c = ']' then
      if depth - 1 = 0 then some (i + 1) else scanBalancedAux rest (depth - 1) (i + 1)
    else scanBalancedAux rest depth (i + 1)

/-- `json.loads` plus the `isinstance(parsed_json, list)` check of the array
stages. -/
def tryParseList (s : Str) : Option J :=
  match parseJson s with
  | some (J.arr l) => some (J.arr l)
  | _ => none

/-- Stage 2 — balanced-bracket array extraction: slice from the first `[` to
the position where the bracket depth returns to zero, and parse. -/
def stage2 (cleaned : Str) : Option J :=
  match findSub cleaned ['['] with
  | none => none
  | some bp =>
    match scanBalancedAux (cleaned.drop bp) 0 0 with
    | none => none
    | some ep => tryParseList (stripJsonSpan ((cleaned.drop bp).take ep))

/-- The match of `re.search(r'\[[\s\S]*?\]', s)`: leftmost start (the first
`[` with some `]` after it), shortest extent (up to the first `]` after it). -/
def regexArrMatch (s : Str) : Option Str :=
  match findSub s ['['] with
  | none => none
  | some i =>
    match findSubFrom s [']'] (i + 1) with
    | none => none
    | some j => some ((s.take (j + 1)).drop i)

/-- Stage 3 — non-greedy regex fallback. -/
def stage3 (cleaned : Str) : Option J :=
  match regexArrMatch cleaned with
  | none => none
  | some m => tryParseList (stripJsonSpan m)

/-- Index of the last occurrence of a character. -/
def findLastChar (s : Str) (c : Char) : Option Nat :=
  (findSub s.reverse [c]).map (fun i => s.length - 1 - i)

/-- The match of `re.search(r'\{[\s\S]*\}', s)`: from the first opening brace
to the last closing brace (greedy). -/
def regexObjMatch (s : Str) : Option Str :=
  match findSub s ['\x7b'] with
  | none => none
  | some p =>
    match findLastChar s '\x7d' with
    | none => none
    | some j => if p < j then some ((s.take (j + 1)).drop p) else none

/-- Stage 4 — single-object fallback (no `isinstance` list check: the parsed
object is returned as-is). -/
def stage4 (cleaned : Str) : Option J :=
  match regexObjMatch cleaned with
  | none => none
  | some m => parseJson (stripJsonSpan m)

/-- Stage 5 — whole-text fallback: trim to the first `[` or `{` (whichever
comes first) and parse the remainder wholesale (any JSON value accepted). -/
def stage5 (cleaned : Str) : Option J :=
  let c2 :=
    if startsWith cleaned ['['] ∨ startsWith cleaned ['\x7b'] then cleaned
    else
      match findSub cleaned ['['], findSub cleaned ['\x7b'] with
      | some js, some jo => if js < jo then cleaned.drop js else cleaned.drop jo
      | some js, none => cleaned.drop js
      | none, some jo => cleaned.drop jo
      | none, none => cleaned
  parseJson (rstripChars ['\n', '\r', '\t', ' ']
    (lstripChars ['\n', '\r', '\t', ' '] c2))

/-! ### The markdown fallback (`_parse_markdown_test_cases`) -/

/-- A field value in a parsed markdown test case: a string, or the collected
list of steps. -/
inductive MDVal where
  | s (v : Str)
  | steps (v : List Str)
  deriving DecidableEq, Repr

/-- A markdown test case is a Python dict with string keys. -/
abbrev MDCase := List (Str × MDVal)

/-- Dict update (upsert) on a markdown case. -/
def mdSet (d : MDCase) (k : Str) (v : MDVal) : MDCase :=
  if d.any (fun kv => kv.1 = k) then
    d.map (fun kv => if kv.1 = k then (k, v) else kv)
  else d ++ [(k, v)]

def mdHas (d : MDCase) (k : Str) : Bool := d.any (fun kv => kv.1 = k)

def mdGet (d : MDCase) (k : Str) : Option MDVal :=
  (d.find? (fun kv => kv.1 = k)).map (·.2)

def kTestID : Str := "Test_ID".data
def kFeature : Str := "Feature".data
def kScenario : Str := "Scenario".data
def kSteps : Str := "Steps".data
def kExpected : Str := "Expected_Result".data
def kGroundedIn : Str := "Grounded_In".data

/-- `line.split(':', 1)[1]` when the line contains a colon. -/
def afterFirstColon (line : Str) : Option Str :=
  match line.dropWhile (· ≠ ':') with
  | [] => none
  | _ :: rest => some rest

/-- `re.match(r'^\d+\.', line)`. -/
def matchesNumDot (line : Str) : Bool :=
  match line.takeWhile Char.isDigit with
  | [] => false
  | ds => (line.drop ds.length).headD ' ' = '.'

/-- `re.sub(r'^\d+\.\s*', '', line)`. -/
def subNumDot (line : Str) : Str :=
  if matchesNumDot line then
    ((line.dropWhile Char.isDigit).drop 1).dropWhile pyIsSpace
  else line

/-- `re.sub(r'^[-*]\s*', '', t)`. -/
def subBullet (t : Str) : Str :=
  match t with
  | c :: rest => if c = '-' ∨ c = '*' then rest.dropWhile pyIsSpace else t
  | [] => []

/-- `f"TC-{n:03d}"`. -/
def synthId (n : Nat) : Str :=
  "TC-".data ++
    (if n < 10 then '0' :: '0' :: Nat.toDigits 10 n
     else if n < 100 then '0' :: Nat.toDigits 10 n
     else Nat.toDigits 10 n)

/-- Loop state of `_parse_markdown_test_cases`: emitted cases, the case being
built, whether `current_field == 'steps'`, and the collected steps. -/
structure MDState where
  cases : List MDCase
  current : MDCase
  inSteps : Bool
  steps : List Str
  deriving Repr

/-- One line of the `_parse_markdown_test_cases` loop. -/
def mdLine (srcDocs : List Str) (st : MDState) (rawLine : Str) : MDState :=
  let line := pyStrip rawLine
  if line = [] then st
  else if startsWith line (kTestID ++ [':']) then
    let cases' :=
      if st.current ≠ [] then
        st.cases ++ [if st.steps ≠ [] then mdSet st.current kSteps (.steps st.steps)
                     else st.current]
      else st.cases
    let cur1 :=
      match afterFirstColon line with
      | some rest => mdSet [] kTestID (.s (pyStrip rest))
      | none => mdSet [] kTestID (.s (synthId (cases'.length + 1)))
    let cur2 := mdSet cur1 kGroundedIn
      (.s ((srcDocs.headD "unknown".data)))
    { st with cases := cases', current := cur2, steps := [] }
  else if startsWith line (kFeature ++ [':']) then
    match afterFirstColon line with
    | some rest => { st with current := mdSet st.current kFeature (.s (pyStrip rest)) }
    | none => st
  else if startsWith line (kScenario ++ [':']) then
    match afterFirstColon line with
    | some rest => { st with current := mdSet st.current kScenario (.s (pyStrip rest)) }
    | none => st
  else if startsWith line (kSteps ++ [':']) then
    { st with inSteps := true, steps := [] }
  else if startsWith line ("Expected Result:".data) ∨
      startsWith line (kExpected ++ [':']) then
    let cur1 :=
      if st.steps ≠ [] then mdSet st.current kSteps (.steps st.steps) else st.current
    let cur2 :=
      match afterFirstColon line with
      | some rest => mdSet cur1 kExpected (.s (pyStrip rest))
      | none => cur1
    { st with current := cur2, inSteps := false, steps := [] }
  else if startsWith line ("Grounded In:".data) ∨
      startsWith line (kGroundedIn ++ [':']) then
    match afterFirstColon line with
    | some rest =>
      let grounded := pyStrip rest
      match srcDocs.find? (fun doc => containsSub (lowerStr grounded) (lowerStr doc)) with
      | some doc => { st with current := mdSet st.current kGroundedIn (.s doc) }
      | none => st
    | none => st
  else if st.inSteps then
    if matchesNumDot line ∨ startsWith line ['-'] ∨ startsWith line ['*'] then
      let stepText := subBullet (subNumDot line)
      if pyStrip stepText ≠ [] then { st with steps := st.steps ++ [pyStrip stepText] }
      else st
    else st
  else st

/-- The flush of the trailing in-progress case at the end of
`_parse_markdown_test_cases`: attach collected steps, default a missing
`Test_ID` to a synthetic sequential one and a missing `Steps` to `[]`. -/
def mdFinalize (fin : MDState) : List MDCase :=
  if fin.current ≠ [] then
    let cur1 :=
      if fin.steps ≠ [] then mdSet fin.current kSteps (.steps fin.steps)
      else fin.current
    let cur2 :=
      if mdHas cur1 kTestID then cur1
      else mdSet cur1 kTestID (.s (synthId (fin.cases.length + 1)))
    let cur3 :=
      if mdHas cur2 kSteps then cur2 else mdSet cur2 kSteps (.steps [])
    fin.cases ++ [cur3]
  else fin.cases

/-- The line loop of `_parse_markdown_test_cases` plus the final flush. -/
def mdRun (srcDocs : List Str) (text : Str) : List MDCase :=
  mdFinalize ((splitChar '\n' text).foldl (mdLine srcDocs) ⟨[], [], false, []⟩)

/-- `_parse_markdown_test_cases(markdown_text, source_documents)`: `None` on
empty input or when no case was recognized; otherwise the parsed cases. -/
def parseMarkdownTestCases (srcDocs : List Str) (text : Str) : Option (List MDCase) :=
  if text = [] then none
  else if mdRun srcDocs text = [] then none
  else some (mdRun srcDocs text)

/-! ### The full extraction pipeline -/

/-- The three shapes `generate_test_cases` can hand back in its
`"test_cases"` field on the JSON path: a successfully parsed JSON value, the
markdown-parsed cases, or the raw-response pseudo-record
(`{"raw_response": ..., "format": "markdown", ...}`) carrying the original
text verbatim. -/
inductive ExtractResult where
  | success (testCases : J)
  | markdown (cases : List MDCase)
  | raw (text : Str)
  deriving Repr

/-- The JSON-format branch of `generate_test_cases`, from the raw LLM
response to the returned `test_cases` payload: fence cleanup, then stages
2–5, then the markdown fallback, then the terminal raw fallback. -/
def extractTestCases (srcDocs : List Str) (resp : Str) : ExtractResult :=
  match stage2 (cleanResponse resp) with
  | some j => .success j
  | none =>
    match stage3 (cleanResponse resp) with
    | some j => .success j
    | none =>
      match stage4 (cleanResponse resp) with
      | some j => .success j
      | none =>
        match stage5 (cleanResponse resp) with
        | some j => .success j
        | none =>
          match parseMarkdownTestCases srcDocs resp with
          | some cases => .markdown cases
          | none => .raw resp

/-! ### Support lemmas on stripping and substring search -/

theorem pyStrip_head_false (s : Str) (c : Char)
    (h : (pyStrip s).head? = some c) : pyIsSpace c = false := by
  unfold pyStrip rstrip lstrip at h
  rw [List.head?_reverse] at h
  set A := s.dropWhile pyIsSpace with hA
  cases hB : A.reverse.dropWhile pyIsSpace with
  | nil => rw [hB] at h; cases h
  | cons b bs =>
    have hBne : A.reverse.dropWhile pyIsSpace ≠ [] := by rw [hB]; simp
    obtain ⟨t, ht⟩ := List.dropWhile_suffix (l := A.reverse) (p := pyIsSpace)
    have h2 : (A.reverse.dropWhile pyIsSpace).getLast? = A.reverse.getLast? := by
      conv_rhs => rw [← ht]
      exact (List.getLast?_append_of_ne_nil t hBne).symm
    rw [h2, List.getLast?_reverse] at h
    cases hAe : A with
    | nil => rw [hAe] at h; cases h
    | cons a as =>
      have hAd : s.dropWhile pyIsSpace = a :: as := by rw [← hA]; exact hAe
      have hAne : s.dropWhile pyIsSpace ≠ [] := by rw [hAd]; simp
      have hhead := List.head_dropWhile_not pyIsSpace s hAne
      rw [hAe] at h
      simp only [List.head?_cons, Option.some.injEq] at h
      have hha : (s.dropWhile pyIsSpace).head hAne = a := by simp [hAd]
      rw [hha] at hhead
      rw [← h]
      exact hhead

theorem pyStrip_getLast_false (s : Str) (c : Char)
    (h : (pyStrip s).getLast? = some c) : pyIsSpace c = false := by
  unfold pyStrip rstrip lstrip at h
  rw [List.getLast?_reverse] at h
  cases hB : (s.dropWhile pyIsSpace).reverse.dropWhile pyIsSpace with
  | nil => rw [hB] at h; cases h
  | cons b bs =>
    have hBne : (s.dropWhile pyIsSpace).reverse.dropWhile pyIsSpace ≠ [] := by
      rw [hB]; simp
    have hhead := List.head_dropWhile_not pyIsSpace
      (s.dropWhile pyIsSpace).reverse hBne
    rw [hB] at h
    simp only [List.head?_cons, Option.some.injEq] at h
    have hhb : ((s.dropWhile pyIsSpace).reverse.dropWhile pyIsSpace).head hBne = b := by
      simp [hB]
    rw [hhb] at hhead
    rw [← h]
    exact hhead

theorem rstrip_eq_self_of_getLast (q : Char → Bool) (l : Str)
    (h : ∀ c, l.getLast? = some c → q c = false) :
    (l.reverse.dropWhile q).reverse = l := by
  have h2 : l.reverse.dropWhile q = l.reverse := by
    apply dropWhile_eq_self_of_head q
    intro c cs hc
    apply h
    rw [← List.head?_reverse, hc]
    rfl
  rw [h2, List.reverse_reverse]

/-- The extractor's span cleanup is the identity on an already-stripped
string (the extra `lstrip`/`rstrip` strip a subset of the whitespace class). -/
theorem stripJsonSpan_strip (s : Str) : stripJsonSpan (pyStrip s) = pyStrip s := by
  unfold stripJsonSpan
  rw [pyStrip_idem]
  have hmem : ∀ c : Char, c ∈ (['\n', '\r', '\t', ' '] : Str) → pyIsSpace c = true := by
    intro c hc
    fin_cases hc <;> rfl
  have h1 : lstripChars ['\n', '\r', '\t', ' '] (pyStrip s) = pyStrip s := by
    unfold lstripChars
    apply dropWhile_eq_self_of_head
    intro c cs hc
    have hf := pyStrip_head_false s c (by rw [hc]; rfl)
    have : ¬c ∈ (['\n', '\r', '\t', ' '] : Str) := by
      intro hm
      rw [hmem c hm] at hf
      cases hf
    exact decide_eq_false this
  rw [h1]
  unfold rstripChars
  apply rstrip_eq_self_of_getLast
  intro c hc
  have hf := pyStrip_getLast_false s c hc
  have : ¬c ∈ (['\n', '\r', '\t', ' '] : Str) := by
    intro hm
    rw [hmem c hm] at hf
    cases hf
  exact decide_eq_false this

theorem containsSub_spec (hay needle : Str) :
    containsSub hay needle = true ↔ needle <:+: hay := by
  unfold containsSub findSub
  suffices h : ∀ (l : Str) (i : Nat),
      (findSubAux needle l i).isSome = true ↔ needle <:+: l from h hay 0
  intro l
  induction l with
  | nil =>
    intro i
    unfold findSubAux
    constructor
    · intro h
      split at h
      · rename_i he
        rw [he]
      · cases h
    · intro h
      rw [if_pos (List.infix_nil.mp h)]
      rfl
  | cons c cs ih =>
    intro i
    unfold findSubAux
    split
    · rename_i hpre
      simp only [Option.isSome_some, true_iff]
      exact (List.isPrefixOf_iff_prefix.mp hpre).isInfix
    · rename_i hpre
      rw [ih (i + 1)]
      constructor
      · intro h
        exact h.trans (List.suffix_cons c cs).isInfix
      · intro h
        rcases List.infix_cons_iff.mp h with h | h
        · exact absurd (List.isPrefixOf_iff_prefix.mpr h) (by simpa using hpre)
        · exact h

theorem pyStrip_within (s : Str) : pyStrip s <:+: s := by
  unfold pyStrip rstrip lstrip
  have h1 : s.dropWhile pyIsSpace <:+ s := List.dropWhile_suffix pyIsSpace
  obtain ⟨t, ht⟩ := List.dropWhile_suffix (l := (s.dropWhile pyIsSpace).reverse)
    (p := pyIsSpace)
  have h2 : ((s.dropWhile pyIsSpace).reverse.dropWhile pyIsSpace).reverse
      <+: s.dropWhile pyIsSpace := by
    refine ⟨t.reverse, ?_⟩
    rw [← List.reverse_append, ht, List.reverse_reverse]
  exact h2.isInfix.trans h1.isInfix

theorem containsSub_strip_mono {s t : Str} (h : containsSub (pyStrip s) t = true) :
    containsSub s t = true := by
  rw [containsSub_spec] at h ⊢
  exact h.trans (pyStrip_within s)

theorem fence_of_fenceJson {x : Str} (h : containsSub x fenceJson = true) :
    containsSub x fence = true := by
  rw [containsSub_spec] at h ⊢
  have hpre : fence <+: fenceJson := ⟨['j', 's', 'o', 'n'], rfl⟩
  exact hpre.isInfix.trans h

theorem fence_of_endsWith {x : Str} (h : endsWith x fence = true) :
    containsSub x fence = true := by
  rw [containsSub_spec]
  unfold endsWith at h
  have : fence.reverse <+: x.reverse := List.isPrefixOf_iff_prefix.mp h
  exact (List.reverse_prefix.mp this).isInfix

/-- Fence cleanup is plain stripping when the response contains no fence
marker at all. -/
theorem cleanResponse_no_fence {s : Str} (h : containsSub s fence = false) :
    cleanResponse s = pyStrip s := by
  have h0 : containsSub (pyStrip s) fence = false := by
    cases hc : containsSub (pyStrip s) fence
    · rfl
    · rw [containsSub_strip_mono hc] at h
      cases h
  have hj : containsSub (pyStrip s) fenceJson = false := by
    cases hc : containsSub (pyStrip s) fenceJson
    · rfl
    · rw [fence_of_fenceJson hc] at h0
      cases h0
  have he : endsWith (pyStrip s) fence = false := by
    cases hc : endsWith (pyStrip s) fence
    · rfl
    · rw [fence_of_endsWith hc] at h0
      cases h0
  simp only [cleanResponse, hj, h0, he, Bool.false_eq_true, if_false]
  exact pyStrip_idem s

/-! ### Claims C6, C7, C8 -/

/-- **C6 (counterexample).**  The input `[{"Test_ID": "a]b"}]` is a valid
JSON array of one record object, but the `]` inside the string literal
derails the depth counter: the balanced-bracket stage fails, and the
extractor falls through to the single-object stage, returning the lone
object instead of the array of records. -/
theorem extract_bracket_in_string_cex :
    parseJson ("[\x7b\"Test_ID\": \"a]b\"\x7d]".data)
      = some (J.arr [J.obj [("Test_ID".data, J.str "a]b".data)]]) ∧
    stage2 (cleanResponse ("[\x7b\"Test_ID\": \"a]b\"\x7d]".data)) = none ∧
    extractTestCases [] ("[\x7b\"Test_ID\": \"a]b\"\x7d]".data)
      = .success (J.obj [("Test_ID".data, J.str "a]b".data)]) ∧
    extractTestCases [] ("[\x7b\"Test_ID\": \"a]b\"\x7d]".data)
      ≠ .success (J.arr [J.obj [("Test_ID".data, J.str "a]b".data)]]) := by
  refine ⟨rfl, rfl, rfl, ?_⟩
  intro hcontra
  rw [show extractTestCases [] ("[\x7b\"Test_ID\": \"a]b\"\x7d]".data)
      = .success (J.obj [("Test_ID".data, J.str "a]b".data)]) from rfl] at hcontra
  injection hcontra with h
  exact J.noConfusion h

/-- **C6 (amended).**  The extractor is idempotent on already-clean JSON
arrays *provided* the serialized text contains no fence marker and no square
bracket inside a string literal (so that the depth scan ends exactly at the
final `]`): then the balanced-bracket stage succeeds and returns exactly the
parsed records. -/
theorem extract_clean_json_idempotent (srcDocs : List Str) (s : Str)
    (recs : List J)
    (hparse : parseJson (pyStrip s) = some (J.arr recs))
    (hfence : containsSub s fence = false)
    (hfind : findSub (pyStrip s) ['['] = some 0)
    (hscan : scanBalancedAux (pyStrip s) 0 0 = some (pyStrip s).length) :
    stage2 (cleanResponse s) = some (J.arr recs) ∧
    extractTestCases srcDocs s = .success (J.arr recs) := by
  have hclean := cleanResponse_no_fence hfence
  have hs2 : stage2 (pyStrip s) = some (J.arr recs) := by
    unfold stage2
    simp only [hfind, List.drop_zero, hscan, List.take_length]
    unfold tryParseList
    rw [stripJsonSpan_strip, hparse]
  constructor
  · rw [hclean]
    exact hs2
  · unfold extractTestCases
    rw [hclean, hs2]

/-- Concrete instance discharging the hypotheses of
`extract_clean_json_idempotent`. -/
theorem extract_clean_json_idempotent_witness :
    (parseJson (pyStrip ("[\x7b\"Test_ID\": \"TC-001\"\x7d]".data))
        = some (J.arr [J.obj [("Test_ID".data, J.str "TC-001".data)]]) ∧
      containsSub ("[\x7b\"Test_ID\": \"TC-001\"\x7d]".data) fence = false ∧
      findSub (pyStrip ("[\x7b\"Test_ID\": \"TC-001\"\x7d]".data)) ['['] = some 0 ∧
      scanBalancedAux (pyStrip ("[\x7b\"Test_ID\": \"TC-001\"\x7d]".data)) 0 0
        = some (pyStrip ("[\x7b\"Test_ID\": \"TC-001\"\x7d]".data)).length) ∧
    extractTestCases [] ("[\x7b\"Test_ID\": \"TC-001\"\x7d]".data)
      = .success (J.arr [J.obj [("Test_ID".data, J.str "TC-001".data)]]) :=
  ⟨⟨rfl, rfl, rfl, rfl⟩,
    (extract_clean_json_idempotent [] ("[\x7b\"Test_ID\": \"TC-001\"\x7d]".data)
      [J.obj [("Test_ID".data, J.str "TC-001".data)]] rfl rfl rfl rfl).2⟩

/-- **C7 (counterexample).**  On the input `[]` — a valid, empty JSON array —
the extractor succeeds at the balanced-bracket stage and returns an *empty*
list of records, contradicting "never returns an empty result". -/
theorem extract_empty_array_empty_result :
    extractTestCases [] ("[]".data) = .success (J.arr []) := rfl

theorem parseMarkdown_ne_nil {srcDocs : List Str} {text : Str} {cs : List MDCase}
    (h : parseMarkdownTestCases srcDocs text = some cs) : cs ≠ [] := by
  unfold parseMarkdownTestCases at h
  split at h
  · cases h
  · split at h
    · cases h
    · rename_i hne
      injection h with h
      rw [← h]
      exact hne

/-- **C7 (amended).**  The extractor never raises: for every input it returns
a parsed JSON value, a non-empty list of markdown-parsed records, or — when
every JSON stage fails and the markdown stage yields zero records — exactly
one raw pseudo-record carrying the original text verbatim (with the
`format` marker).  (A *successful* JSON stage may still return an empty
array, which is the one corrected point of the claim.) -/
theorem extract_always_returns (srcDocs : List Str) (resp : Str) :
    (∃ j, extractTestCases srcDocs resp = .success j) ∨
    (∃ cases, cases ≠ [] ∧ extractTestCases srcDocs resp = .markdown cases) ∨
    extractTestCases srcDocs resp = .raw resp := by
  cases h2 : stage2 (cleanResponse resp) with
  | some j => exact Or.inl ⟨j, by unfold extractTestCases; rw [h2]⟩
  | none =>
    cases h3 : stage3 (cleanResponse resp) with
    | some j => exact Or.inl ⟨j, by unfold extractTestCases; rw [h2, h3]⟩
    | none =>
      cases h4 : stage4 (cleanResponse resp) with
      | some j => exact Or.inl ⟨j, by unfold extractTestCases; rw [h2, h3, h4]⟩
      | none =>
        cases h5 : stage5 (cleanResponse resp) with
        | some j => exact Or.inl ⟨j, by unfold extractTestCases; rw [h2, h3, h4, h5]⟩
        | none =>
          cases hmd : parseMarkdownTestCases srcDocs resp with
          | some cs =>
            exact Or.inr (Or.inl ⟨cs, parseMarkdown_ne_nil hmd,
              by unfold extractTestCases; rw [h2, h3, h4, h5, hmd]⟩)
          | none =>
            exact Or.inr (Or.inr
              (by unfold extractTestCases; rw [h2, h3, h4, h5, hmd]))

/-- **C8 (counterexample).**  A bolded `**Steps:**` label is not recognized
by the markdown stage: step collection never starts, and the record's
`Steps` field stays `[]` instead of `["Open page"]`. -/
theorem markdown_bold_steps_label_ignored :
    extractTestCases [] ("Test_ID: TC-1\n**Steps:**\n1. Open page".data)
      = .markdown [[(kTestID, MDVal.s "TC-1".data),
                    (kGroundedIn, MDVal.s "unknown".data),
                    (kSteps, MDVal.steps [])]] ∧
    MDVal.steps ([] : List Str) ≠ MDVal.steps ["Open page".data] :=
  ⟨rfl, by decide⟩

/-- **C8 (amended).**  A *plain* `Steps:` label (bolded labels are not
recognized) switches into step collection, which accumulates numbered or
bulleted lines with the leading marker stripped (bold emphasis is *not*
stripped), until `Expected_Result`/`Expected Result` or a recognized field
label that resets it; the claim's concrete instance holds: the given input
yields exactly one record whose `Steps` equals
`["Open page", "Click login"]`. -/
theorem markdown_steps_collection :
    (∀ (srcDocs : List Str) (st : MDState) (rawLine : Str),
      startsWith (pyStrip rawLine) (kSteps ++ [':']) = true →
      mdLine srcDocs st rawLine = { st with inSteps := true, steps := [] }) ∧
    extractTestCases []
      ("Test_ID: TC-002\nFeature: Login\nSteps:\n1. Open page\n2. Click login\nExpected_Result: success".data)
      = .markdown [[(kTestID, MDVal.s "TC-002".data),
                    (kGroundedIn, MDVal.s "unknown".data),
                    (kFeature, MDVal.s "Login".data),
                    (kSteps, MDVal.steps ["Open page".data, "Click login".data]),
                    (kExpected, MDVal.s "success".data)]] := by
  constructor
  · intro srcDocs st rawLine h
    obtain ⟨rest, hrest⟩ := List.isPrefixOf_iff_prefix.mp h
    unfold mdLine
    rw [← hrest]
    have c1 : (((kSteps ++ [':']) ++ rest : Str) = []) = False := by simp
    have c2 : startsWith ((kSteps ++ [':']) ++ rest) (kTestID ++ [':']) = false := rfl
    have c3 : startsWith ((kSteps ++ [':']) ++ rest) (kFeature ++ [':']) = false := rfl
    have c4 : startsWith ((kSteps ++ [':']) ++ rest) (kScenario ++ [':']) = false := rfl
    have c5 : startsWith ((kSteps ++ [':']) ++ rest) (kSteps ++ [':']) = true := by
      unfold startsWith
      rw [List.isPrefixOf_iff_prefix]
      exact ⟨rest, rfl⟩
    simp only [c1, c2, c3, c4, c5, Bool.false_eq_true, if_false, if_true]
  · rfl

/-- Concrete instance discharging the hypothesis of
`markdown_steps_collection`. -/
theorem markdown_steps_collection_witness :
    startsWith (pyStrip ("Steps:".data)) (kSteps ++ [':']) = true ∧
    mdLine [] ⟨[], [], false, []⟩ ("Steps:".data)
      = { (⟨[], [], false, []⟩ : MDState) with inSteps := true, steps := [] } :=
  ⟨rfl, markdown_steps_collection.1 [] ⟨[], [], false, []⟩ ("Steps:".data) rfl⟩

/-- Concrete instance discharging the hypothesis of
`search_returns_k_nearest`. -/
theorem search_returns_k_nearest_witness :
    ((⟨1, [[0], [1]], [[(textKey, ['a'])], [(textKey, ['b'])]]⟩ : DB).vectors.length
      = (⟨1, [[0], [1]], [[(textKey, ['a'])], [(textKey, ['b'])]]⟩ : DB).metadata.length) ∧
    SearchSpec (fun _ => [0]) ⟨1, [[0], [1]], [[(textKey, ['a'])], [(textKey, ['b'])]]⟩
      ['x'] 1 :=
  ⟨rfl, search_returns_k_nearest (fun _ => [0]) _ ['x'] 1 rfl⟩

end AQA
